import Mathlib

/-!
# Verification of the go-twitter v2 marshaling and rule-validation core

Shallow embedding of `src/v2/tweet_search.go` and `src/v2/user_params.go`
(package `twitter`), together with the parts of the Go standard library the
code relies on (`net/url` query parsing/encoding, `strings.Join`,
`strconv.Itoa`), modelled faithfully from their documented semantics.
Repository declarations referenced by the two source files but defined in
other files of the repository (`ErrParameter`, `ErrorResponse`, `HTTPError`,
`ResponseDecodeError`, the rate-limit extractors and the field/expansion
enumerations) are modelled from the specification and marked as such.

Go byte-strings are modelled as Lean `String`s; the model is faithful for
all inputs whose percent-decoded bytes are valid UTF-8 (the only inputs any
claim exercises).
-/

namespace GoTwitter

/-! ## Go standard library model: `net/url` query escaping -/

/-- UTF-8 bytes of a character, as `Nat`s (pure arithmetic so that the
kernel can evaluate it on concrete inputs). -/
def utf8Bytes (c : Char) : List Nat :=
  if c.toNat < 0x80 then [c.toNat]
  else if c.toNat < 0x800 then [0xC0 + c.toNat / 0x40, 0x80 + c.toNat % 0x40]
  else if c.toNat < 0x10000 then
    [0xE0 + c.toNat / 0x1000, 0x80 + (c.toNat / 0x40) % 0x40, 0x80 + c.toNat % 0x40]
  else
    [0xF0 + c.toNat / 0x40000, 0x80 + (c.toNat / 0x1000) % 0x40,
     0x80 + (c.toNat / 0x40) % 0x40, 0x80 + c.toNat % 0x40]

/-- Upper-case hexadecimal digit, as in Go's `net/url` (`"0123456789ABCDEF"`). -/
def hexDigitChar (n : Nat) : Char :=
  if n < 10 then Char.ofNat (48 + n) else Char.ofNat (55 + n)

/-- Go `net/url`: bytes that stay unescaped in a query component
(`shouldEscape(c, encodeQueryComponent)` is false): alphanumerics and
`-`, `_`, `.`, `~`. -/
def isUnreservedByte (b : Nat) : Bool :=
  (48 ≤ b && b ≤ 57) || (65 ≤ b && b ≤ 90) || (97 ≤ b && b ≤ 122) ||
  b == 45 || b == 95 || b == 46 || b == 126

/-- Escape one byte as Go `url.QueryEscape` does: space becomes `+`,
unreserved bytes stay, everything else becomes `%XX`. -/
def escapeByte (b : Nat) : List Char :=
  if b == 32 then ['+']
  else if isUnreservedByte b then [Char.ofNat b]
  else ['%', hexDigitChar (b / 16 % 16), hexDigitChar (b % 16)]

/-- Go `url.QueryEscape`: escape every UTF-8 byte of the string. -/
def queryEscape (s : String) : String :=
  ⟨((s.data.map utf8Bytes).flatten.map escapeByte).flatten⟩

/-- Hex digit value of a character, if it is one (Go `net/url` `unhex`,
accepting both cases). -/
def unhex (c : Char) : Option Nat :=
  let n := c.toNat
  if 48 ≤ n && n ≤ 57 then some (n - 48)
  else if 97 ≤ n && n ≤ 102 then some (n - 97 + 10)
  else if 65 ≤ n && n ≤ 70 then some (n - 65 + 10)
  else none

/-- Percent-decode the characters of a query component into bytes, as Go
`url.QueryUnescape` does in query mode: `%XX` must have two valid hex
digits (otherwise the whole unescape fails), `+` is a space, every other
character contributes its UTF-8 bytes. -/
def unescapeBytes : List Char → Option (List Nat)
  | [] => some []
  | c :: rest =>
    if c = '%' then
      match rest with
      | c1 :: c2 :: rest2 =>
        match unhex c1, unhex c2 with
        | some h, some l => (unescapeBytes rest2).map fun bs => (16 * h + l) :: bs
        | _, _ => none
      | _ => none
    else if c = '+' then (unescapeBytes rest).map fun bs => 32 :: bs
    else (unescapeBytes rest).map fun bs => utf8Bytes c ++ bs

/-- Decode a byte sequence as UTF-8 (Go strings are byte strings; the model
represents them as Lean `String`s, so decoding must succeed — it does on
every input the claims exercise). -/
def utf8Decode : List Nat → Option (List Char)
  | [] => some []
  | b :: rest =>
    if b < 0x80 then (utf8Decode rest).map fun cs => Char.ofNat b :: cs
    else if b < 0xC0 then none
    else if b < 0xE0 then
      match rest with
      | b1 :: rest1 =>
        if 0x80 ≤ b1 ∧ b1 < 0xC0 then
          let n := (b - 0xC0) * 0x40 + (b1 - 0x80)
          if 0x80 ≤ n ∧ n < 0x800 then
            (utf8Decode rest1).map fun cs => Char.ofNat n :: cs
          else none
        else none
      | [] => none
    else if b < 0xF0 then
      match rest with
      | b1 :: b2 :: rest2 =>
        if (0x80 ≤ b1 ∧ b1 < 0xC0) ∧ (0x80 ≤ b2 ∧ b2 < 0xC0) then
          let n := (b - 0xE0) * 0x1000 + (b1 - 0x80) * 0x40 + (b2 - 0x80)
          if (0x800 ≤ n ∧ n < 0x10000) ∧ ¬(0xD800 ≤ n ∧ n < 0xE000) then
            (utf8Decode rest2).map fun cs => Char.ofNat n :: cs
          else none
        else none
      | _ => none
    else if b < 0xF8 then
      match rest with
      | b1 :: b2 :: b3 :: rest3 =>
        if ((0x80 ≤ b1 ∧ b1 < 0xC0) ∧ (0x80 ≤ b2 ∧ b2 < 0xC0)) ∧
           (0x80 ≤ b3 ∧ b3 < 0xC0) then
          let n := (b - 0xF0) * 0x40000 + (b1 - 0x80) * 0x1000 +
                   (b2 - 0x80) * 0x40 + (b3 - 0x80)
          if 0x10000 ≤ n ∧ n < 0x110000 then
            (utf8Decode rest3).map fun cs => Char.ofNat n :: cs
          else none
        else none
      | _ => none
    else none

/-- Go `url.QueryUnescape` on a query component, restricted to byte
sequences that decode as UTF-8. -/
def queryUnescape (cs : List Char) : Option String :=
  match unescapeBytes cs with
  | none => none
  | some bs => (utf8Decode bs).map fun ds => ⟨ds⟩

/-! ## Go standard library model: `url.Values` -/

/-- Go `url.Values` (`map[string][]string`): modelled as an association
list with (by construction) pairwise-distinct keys.  `Encode` sorts by key,
so the list order carries no observable information beyond the key set. -/
abbrev Values := List (String × List String)

/-- Go `Values.Add`: append `v` to the value list of `k`, creating the key
if absent. -/
def Values.add (q : Values) (k v : String) : Values :=
  match q with
  | [] => [(k, [v])]
  | p :: rest => if p.1 = k then (p.1, p.2 ++ [v]) :: rest else p :: Values.add rest k v

/-- Values stored under key `k` (Go `v[k]`; `[]` when the key is absent). -/
def Values.get (q : Values) (k : String) : List String :=
  match q with
  | [] => []
  | p :: rest => if p.1 = k then p.2 else Values.get rest k

/-- Lexicographic strict order on character lists.  Go `sort.Strings`
compares byte-wise; on UTF-8 encodings byte order coincides with this
code-point order. -/
def charListLt : List Char → List Char → Bool
  | _, [] => false
  | [], _ :: _ => true
  | a :: as, b :: bs => a.toNat < b.toNat || (a.toNat == b.toNat && charListLt as bs)

/-- Go string comparison `s < t` (`sort.Strings` order). -/
def strLt (a b : String) : Bool :=
  charListLt a.data b.data

/-- Insert an entry into a key-sorted association list (Go `Values.Encode`
sorts its keys with `sort.Strings`; keys are pairwise distinct). -/
def insertByKey (p : String × List String) : Values → Values
  | [] => [p]
  | q :: rest => if strLt p.1 q.1 then p :: q :: rest else q :: insertByKey p rest

/-- Sort an association list by key. -/
def sortByKey (q : Values) : Values :=
  q.foldr insertByKey []

/-- Go `Values.Encode`: sort by key, emit `key=value` (both query-escaped)
for every value in list order, joined with `&`. -/
def Values.encode (q : Values) : String :=
  String.intercalate "&"
    ((sortByKey q).map (fun p =>
      p.2.map fun v => queryEscape p.1 ++ "=" ++ queryEscape v)).flatten

/-- Split a character list on a separator character (Go `strings.Cut`
iterated, as in `url.ParseQuery`'s loop over `&`). -/
def splitListOn (sep : Char) : List Char → List (List Char)
  | [] => [[]]
  | c :: rest =>
    match splitListOn sep rest with
    | [] => [[c]]
    | grp :: gs => if c = sep then [] :: grp :: gs else (c :: grp) :: gs

/-- Cut a character list at the first occurrence of `sep`
(Go `strings.Cut`; when `sep` is absent the second component is empty). -/
def cutOn (sep : Char) : List Char → List Char × List Char
  | [] => ([], [])
  | c :: rest =>
    if c = sep then ([], rest)
    else
      let p := cutOn sep rest
      (c :: p.1, p.2)

/-- One iteration of Go `url.parseQuery`: skip empty segments and segments
containing `;`, cut at the first `=`, unescape key and value (skipping the
segment if either fails), and `Add` the pair. -/
def parseQueryItem (m : Values) (item : List Char) : Values :=
  if item.any (fun c => c = ';') then m
  else if item.isEmpty then m
  else
    let p := cutOn '=' item
    match queryUnescape p.1, queryUnescape p.2 with
    | some k, some v => m.add k v
    | _, _ => m

/-- Go `url.ParseQuery` as used by `req.URL.Query()` (parse errors are
ignored and the partially filled map is returned). -/
def parseQuery (s : String) : Values :=
  (splitListOn '&' s.data).foldl parseQueryItem []

/-- A key occurs in a values map. -/
def Values.hasKey (q : Values) (k : String) : Bool :=
  q.any fun p => p.1 = k

/-- The flattened (key, value) pair sequence of a values map, in entry
order. -/
def valuesPairs (q : Values) : List (String × String) :=
  (q.map fun p => p.2.map fun v => (p.1, v)).flatten

/-- Character form of one encoded `key=value` segment. -/
def segChars (pr : String × String) : List Char :=
  (queryEscape pr.1).data ++ '=' :: (queryEscape pr.2).data

/-! ## Domain types -/

/-- Modelled from the spec: `Expansion` is an opaque string-producing
enumeration defined elsewhere in the repository. -/
structure Expansion where
  val : String
deriving DecidableEq, Repr

/-- Modelled from the spec: `MediaField`, an opaque string enumeration. -/
structure MediaField where
  val : String
deriving DecidableEq, Repr

/-- Modelled from the spec: `PlaceField`, an opaque string enumeration. -/
structure PlaceField where
  val : String
deriving DecidableEq, Repr

/-- Modelled from the spec: `PollField`, an opaque string enumeration. -/
structure PollField where
  val : String
deriving DecidableEq, Repr

/-- Modelled from the spec: `TweetField`, an opaque string enumeration. -/
structure TweetField where
  val : String
deriving DecidableEq, Repr

/-- Modelled from the spec: `UserField`, an opaque string enumeration. -/
structure UserField where
  val : String
deriving DecidableEq, Repr

/-- Modelled from the spec: `expansionStringArray` renders each expansion
to its wire string, preserving order. -/
def expansionStringArray (xs : List Expansion) : List String :=
  xs.map fun x => x.val

/-- Modelled from the spec: wire strings of media fields, order preserved. -/
def mediaFieldStringArray (xs : List MediaField) : List String :=
  xs.map fun x => x.val

/-- Modelled from the spec: wire strings of place fields, order preserved. -/
def placeFieldStringArray (xs : List PlaceField) : List String :=
  xs.map fun x => x.val

/-- Modelled from the spec: wire strings of poll fields, order preserved. -/
def pollFieldStringArray (xs : List PollField) : List String :=
  xs.map fun x => x.val

/-- Modelled from the spec: wire strings of tweet fields, order preserved. -/
def tweetFieldStringArray (xs : List TweetField) : List String :=
  xs.map fun x => x.val

/-- Modelled from the spec: wire strings of user fields, order preserved. -/
def userFieldStringArray (xs : List UserField) : List String :=
  xs.map fun x => x.val

/-- Go `time.Time` (standard library), abstracted to its zero-value test:
`ns` counts nanoseconds since the zero time, `IsZero` holds exactly on the
zero value.  The RFC 3339 rendering is abstracted (no claim inspects its
text). -/
structure Time where
  ns : Nat
deriving DecidableEq, Repr

/-- Go `t.IsZero()`. -/
def Time.IsZero (t : Time) : Bool :=
  t.ns == 0

/-- Go `t.Format(time.RFC3339)`, abstracted to an injective rendering. -/
def Time.formatRFC3339 (t : Time) : String :=
  toString t.ns

/-- Go `*http.Request`, reduced to the only component `addQuery` touches:
`req.URL.RawQuery`. -/
structure Request where
  RawQuery : String
deriving DecidableEq, Repr

/-- Go `type TweetSearchSortOrder string`. -/
abbrev TweetSearchSortOrder := String

/-- `TweetSearchSortOrderRecency`: tweets in order of recency. -/
def TweetSearchSortOrderRecency : TweetSearchSortOrder := "recency"

/-- `TweetSearchSortOrderRelevancy`: tweets in order of relevancy. -/
def TweetSearchSortOrderRelevancy : TweetSearchSortOrder := "relevancy"

/-- `TweetRecentSearchOpts`: the optional parameters for the recent search
API (`tweet_search.go`). -/
structure TweetRecentSearchOpts where
  Expansions : List Expansion := []
  MediaFields : List MediaField := []
  PlaceFields : List PlaceField := []
  PollFields : List PollField := []
  TweetFields : List TweetField := []
  UserFields : List UserField := []
  StartTime : Time := ⟨0⟩
  EndTime : Time := ⟨0⟩
  SortOrder : TweetSearchSortOrder := ""
  MaxResults : Int := 0
  NextToken : String := ""
  SinceID : String := ""
  UntilID : String := ""
deriving DecidableEq, Repr

/-- The `q.Add` calls of `TweetRecentSearchOpts.addQuery`
(`tweet_search.go` lines 40–80), in source order, acting on the parsed
query `q`. -/
def TweetRecentSearchOpts.addQueryValues (t : TweetRecentSearchOpts) (q : Values) : Values :=
  let q := if t.Expansions.length > 0 then
    q.add "expansions" (String.intercalate "," (expansionStringArray t.Expansions)) else q
  let q := if t.MediaFields.length > 0 then
    q.add "media.fields" (String.intercalate "," (mediaFieldStringArray t.MediaFields)) else q
  let q := if t.PlaceFields.length > 0 then
    q.add "place.fields" (String.intercalate "," (placeFieldStringArray t.PlaceFields)) else q
  let q := if t.PollFields.length > 0 then
    q.add "poll.fields" (String.intercalate "," (pollFieldStringArray t.PollFields)) else q
  let q := if t.TweetFields.length > 0 then
    q.add "tweet.fields" (String.intercalate "," (tweetFieldStringArray t.TweetFields)) else q
  let q := if t.UserFields.length > 0 then
    q.add "user.fields" (String.intercalate "," (userFieldStringArray t.UserFields)) else q
  let q := if !t.StartTime.IsZero then q.add "start_time" t.StartTime.formatRFC3339 else q
  let q := if !t.EndTime.IsZero then q.add "end_time" t.EndTime.formatRFC3339 else q
  let q := if t.MaxResults > 0 then q.add "max_results" (toString t.MaxResults) else q
  let q := if t.NextToken.length > 0 then q.add "next_token" t.NextToken else q
  let q := if t.SinceID.length > 0 then q.add "since_id" t.SinceID else q
  let q := if t.UntilID.length > 0 then q.add "until_id" t.UntilID else q
  let q := if t.SortOrder.length > 0 then q.add "sort_order" t.SortOrder else q
  q

/-- `TweetRecentSearchOpts.addQuery` (`tweet_search.go` lines 40–84):
parse the request's query, add the non-zero options, and re-encode into
`RawQuery` when the resulting values are non-empty. -/
def TweetRecentSearchOpts.addQuery (t : TweetRecentSearchOpts) (req : Request) : Request :=
  let q := t.addQueryValues (parseQuery req.RawQuery)
  if q.length > 0 then { req with RawQuery := q.encode } else req

/-- `UserLookupOpts`: the optional parameters for the user lookup callout
(`user_params.go`). -/
structure UserLookupOpts where
  Expansions : List Expansion := []
  TweetFields : List TweetField := []
  UserFields : List UserField := []
deriving DecidableEq, Repr

/-- The `q.Add` calls of `UserLookupOpts.addQuery` (`user_params.go`
lines 15–25), in source order. -/
def UserLookupOpts.addQueryValues (u : UserLookupOpts) (q : Values) : Values :=
  let q := if u.Expansions.length > 0 then
    q.add "expansions" (String.intercalate "," (expansionStringArray u.Expansions)) else q
  let q := if u.TweetFields.length > 0 then
    q.add "tweet.fields" (String.intercalate "," (tweetFieldStringArray u.TweetFields)) else q
  let q := if u.UserFields.length > 0 then
    q.add "user.fields" (String.intercalate "," (userFieldStringArray u.UserFields)) else q
  q

/-- `UserLookupOpts.addQuery` (`user_params.go` lines 15–29). -/
def UserLookupOpts.addQuery (u : UserLookupOpts) (req : Request) : Request :=
  let q := u.addQueryValues (parseQuery req.RawQuery)
  if q.length > 0 then { req with RawQuery := q.encode } else req

/-- Per-key contribution of `TweetRecentSearchOpts.addQueryValues`: the
values it appends under key `k`, in source order. -/
def recentContribution (t : TweetRecentSearchOpts) (k : String) : List String :=
  (if k = "expansions" then (if t.Expansions.length > 0 then
    [String.intercalate "," (expansionStringArray t.Expansions)] else []) else []) ++
  (if k = "media.fields" then (if t.MediaFields.length > 0 then
    [String.intercalate "," (mediaFieldStringArray t.MediaFields)] else []) else []) ++
  (if k = "place.fields" then (if t.PlaceFields.length > 0 then
    [String.intercalate "," (placeFieldStringArray t.PlaceFields)] else []) else []) ++
  (if k = "poll.fields" then (if t.PollFields.length > 0 then
    [String.intercalate "," (pollFieldStringArray t.PollFields)] else []) else []) ++
  (if k = "tweet.fields" then (if t.TweetFields.length > 0 then
    [String.intercalate "," (tweetFieldStringArray t.TweetFields)] else []) else []) ++
  (if k = "user.fields" then (if t.UserFields.length > 0 then
    [String.intercalate "," (userFieldStringArray t.UserFields)] else []) else []) ++
  (if k = "start_time" then (if !t.StartTime.IsZero then [t.StartTime.formatRFC3339] else []) else []) ++
  (if k = "end_time" then (if !t.EndTime.IsZero then [t.EndTime.formatRFC3339] else []) else []) ++
  (if k = "max_results" then (if t.MaxResults > 0 then [toString t.MaxResults] else []) else []) ++
  (if k = "next_token" then (if t.NextToken.length > 0 then [t.NextToken] else []) else []) ++
  (if k = "since_id" then (if t.SinceID.length > 0 then [t.SinceID] else []) else []) ++
  (if k = "until_id" then (if t.UntilID.length > 0 then [t.UntilID] else []) else []) ++
  (if k = "sort_order" then (if t.SortOrder.length > 0 then [t.SortOrder] else []) else [])

/-- Per-key contribution of `UserLookupOpts.addQueryValues`. -/
def userContribution (u : UserLookupOpts) (k : String) : List String :=
  (if k = "expansions" then (if u.Expansions.length > 0 then
    [String.intercalate "," (expansionStringArray u.Expansions)] else []) else []) ++
  (if k = "tweet.fields" then (if u.TweetFields.length > 0 then
    [String.intercalate "," (tweetFieldStringArray u.TweetFields)] else []) else []) ++
  (if k = "user.fields" then (if u.UserFields.length > 0 then
    [String.intercalate "," (userFieldStringArray u.UserFields)] else []) else [])

/-- All fields of a `TweetRecentSearchOpts` are zero-valued for their type
(the spec's omission condition: empty list/string, zero time, zero or
negative integer). -/
def TweetRecentSearchOpts.allZero (t : TweetRecentSearchOpts) : Prop :=
  t.Expansions = [] ∧ t.MediaFields = [] ∧ t.PlaceFields = [] ∧ t.PollFields = [] ∧
  t.TweetFields = [] ∧ t.UserFields = [] ∧ t.StartTime.IsZero = true ∧
  t.EndTime.IsZero = true ∧ t.MaxResults ≤ 0 ∧ t.NextToken = "" ∧
  t.SinceID = "" ∧ t.UntilID = "" ∧ t.SortOrder = ""

instance (t : TweetRecentSearchOpts) : Decidable t.allZero := by
  unfold TweetRecentSearchOpts.allZero; infer_instance

/-- All fields of a `UserLookupOpts` are zero-valued. -/
def UserLookupOpts.allZero (u : UserLookupOpts) : Prop :=
  u.Expansions = [] ∧ u.TweetFields = [] ∧ u.UserFields = []

instance (u : UserLookupOpts) : Decidable u.allZero := by
  unfold UserLookupOpts.allZero; infer_instance

/-! ## Stream rules and validation -/

/-- Go `error` values as the two source files create and compare them:
the sentinel `ErrParameter` (modelled from the spec: defined elsewhere in
the repository as the parameter-validation sentinel) and `fmt.Errorf`
wrapping with `%w`. -/
inductive GoError where
  | errParameter
  | wrap (msg : String) (inner : GoError)
deriving DecidableEq, Repr

/-- Modelled from the spec: the repository's `ErrParameter` sentinel for
caller-supplied invalid values. -/
def ErrParameter : GoError := GoError.errParameter

/-- Go `errors.Is(e, ErrParameter)`: unwrap the `%w` chain and compare
with the sentinel. -/
def GoError.isParameterError : GoError → Bool
  | .errParameter => true
  | .wrap _ inner => inner.isParameterError

/-- `TweetSearchStreamRule` (`tweet_search.go`): a filter value plus an
optional tag. -/
structure TweetSearchStreamRule where
  Value : String
  Tag : String := ""
deriving DecidableEq, Repr

/-- `TweetSearchStreamRule.validate` (`tweet_search.go` lines 241–246). -/
def TweetSearchStreamRule.validate (t : TweetSearchStreamRule) : Option GoError :=
  if t.Value.length = 0 then
    some (GoError.wrap "tweet search stream rule value is required" ErrParameter)
  else none

/-- Go `type tweetSearchStreamRules []TweetSearchStreamRule`. -/
abbrev tweetSearchStreamRules := List TweetSearchStreamRule

/-- `tweetSearchStreamRules.validate` (`tweet_search.go` lines 250–257):
return the first rule's validation error, `none` if all valid. -/
def tweetSearchStreamRules.validate : tweetSearchStreamRules → Option GoError
  | [] => none
  | r :: rest =>
    match r.validate with
    | some e => some e
    | none => tweetSearchStreamRules.validate rest

/-- Go `type TweetSearchStreamRuleID string`: an opaque identifier. -/
structure TweetSearchStreamRuleID where
  val : String
deriving DecidableEq, Repr

/-- `TweetSearchStreamRuleID.validate` (`tweet_search.go` lines 262–267):
`len(t) == 0` is the length of the underlying string. -/
def TweetSearchStreamRuleID.validate (t : TweetSearchStreamRuleID) : Option GoError :=
  if t.val.length = 0 then
    some (GoError.wrap "tweet search rule id is required" ErrParameter)
  else none

/-- Go `type tweetSearchStreamRuleIDs []TweetSearchStreamRuleID`. -/
abbrev tweetSearchStreamRuleIDs := List TweetSearchStreamRuleID

/-- `tweetSearchStreamRuleIDs.validate` (`tweet_search.go` lines 271–278). -/
def tweetSearchStreamRuleIDs.validate : tweetSearchStreamRuleIDs → Option GoError
  | [] => none
  | i :: rest =>
    match i.validate with
    | some e => some e
    | none => tweetSearchStreamRuleIDs.validate rest

/-- `tweetSearchStreamRuleIDs.toStringArray` (`tweet_search.go` lines
280–286): `ids[i] = string(id)` for each index in order. -/
def tweetSearchStreamRuleIDs.toStringArray (t : tweetSearchStreamRuleIDs) : List String :=
  t.map fun i => i.val

/-! ## Response decoding -/

/-- Go `http.Header`, reduced to string lookups. -/
abbrev Headers := List (String × String)

/-- Header value for a key, empty string when absent (Go `Header.Get`). -/
def headerGet (h : Headers) (k : String) : String :=
  match h.lookup k with
  | some v => v
  | none => ""

/-- Modelled from the spec: defensive numeric header parse — a missing or
malformed header yields a zero reading, never an error. -/
def parseRateNat (s : String) : Nat :=
  if s.data ≠ [] ∧ s.data.all (fun c => 48 ≤ c.toNat && c.toNat ≤ 57) then
    s.data.foldl (fun n c => 10 * n + (c.toNat - 48)) 0
  else 0

/-- Modelled from the spec: one rate-limit quota snapshot
(limit/remaining/reset). -/
structure RateLimit where
  Limit : Nat := 0
  Remaining : Nat := 0
  Reset : Nat := 0
deriving DecidableEq, Repr

/-- Modelled from the spec: `rateFromHeader` reads the request-window
quota triple from the response headers, defensively. -/
def rateFromHeader (h : Headers) : RateLimit :=
  { Limit := parseRateNat (headerGet h "x-rate-limit-limit"),
    Remaining := parseRateNat (headerGet h "x-rate-limit-remaining"),
    Reset := parseRateNat (headerGet h "x-rate-limit-reset") }

/-- Modelled from the spec: `dailyAppRateFromHeader` reads the daily
app-level quota triple, defensively. -/
def dailyAppRateFromHeader (h : Headers) : RateLimit :=
  { Limit := parseRateNat (headerGet h "x-app-limit-24hour-limit"),
    Remaining := parseRateNat (headerGet h "x-app-limit-24hour-remaining"),
    Reset := parseRateNat (headerGet h "x-app-limit-24hour-reset") }

/-- Modelled from the spec: `dailyUserRateFromHeader` reads the daily
user-level quota triple, defensively. -/
def dailyUserRateFromHeader (h : Headers) : RateLimit :=
  { Limit := parseRateNat (headerGet h "x-user-limit-24hour-limit"),
    Remaining := parseRateNat (headerGet h "x-user-limit-24hour-remaining"),
    Reset := parseRateNat (headerGet h "x-user-limit-24hour-reset") }

/-- Modelled from the spec: the platform's structured error envelope
(`ErrorResponse`, defined elsewhere in the repository), with the status
code mirror and rate-limit fields `Build` fills in. -/
structure ErrorResponse where
  Title : String := ""
  Detail : String := ""
  StatusCode : Int := 0
  RateLimit : GoTwitter.RateLimit := {}
  DailyAppRateLimit : GoTwitter.RateLimit := {}
  DailyUserRateLimit : GoTwitter.RateLimit := {}
deriving DecidableEq, Repr

/-- Modelled from the spec: `TweetRaw`, the raw decoded payload of
platform-defined shape (opaque here). -/
structure TweetRaw where
  payload : String := ""
deriving DecidableEq, Repr

/-- `TweetRecentSearchMeta` (`tweet_search.go`): the typed recent-search
metadata. -/
structure TweetRecentSearchMeta where
  NewestID : String := ""
  OldestID : String := ""
  ResultCount : Int := 0
  NextToken : String := ""
deriving DecidableEq, Repr

/-- `TweetRecentSearchResponse` (`tweet_search.go`): raw payload, typed
metadata and the attached rate limit. -/
structure TweetRecentSearchResponse where
  Raw : TweetRaw
  Meta : TweetRecentSearchMeta
  RateLimit : GoTwitter.RateLimit
deriving DecidableEq, Repr

/-- The response body bytes, abstracted to the outcomes of the three
`json.Unmarshal` attempts `Build` can make on them (`encoding/json` is Go
standard library, external to this repository): parse as the error
envelope, parse as the raw structural form, and parse as the typed
metadata wrapper.  `Except.error` carries the unmarshal error text. -/
structure Buffer where
  asErrorResponse : Except String ErrorResponse
  asTweetRaw : Except String TweetRaw
  asMeta : Except String TweetRecentSearchMeta

/-- The error side of `Build`'s `(*TweetRecentSearchResponse, error)`
return: a read failure, an `HTTPError` (minimal variant: status code and
rate limits only; modelled from the spec), a filled-in `ErrorResponse`, or
a `ResponseDecodeError` (name, wrapped parse error, rate limit; modelled
from the spec). -/
inductive BuildError where
  | readError (msg : String)
  | httpError (StatusCode : Int)
      (RateLimit DailyAppRateLimit DailyUserRateLimit : GoTwitter.RateLimit)
  | errorResponse (e : ErrorResponse)
  | responseDecodeError (Name Err : String) (RateLimit : GoTwitter.RateLimit)
deriving DecidableEq, Repr

deriving instance DecidableEq for Except

/-- `TweetRecentSearchAsyncResponse` (`tweet_search.go`): the async job
handle; `Build` is attached to it. -/
structure TweetRecentSearchAsyncResponse where
  ID : String := ""
deriving DecidableEq, Repr

/-- `TweetRecentSearchAsyncResponse.Build` (`tweet_search.go` lines
91–141): read the body (propagating a read failure), extract the three
rate limits, then branch on the status code: non-200 bodies are decoded as
the error envelope (degrading to the minimal `HTTPError` when that parse
fails); 200 bodies are decoded twice (raw form, then typed wrapper), each
failure becoming a `ResponseDecodeError` carrying the parse error and the
request-window rate limit. -/
def TweetRecentSearchAsyncResponse.Build (statusCode : Int) (headers : Headers)
    (body : Except String Buffer) : Except BuildError TweetRecentSearchResponse :=
  match body with
  | .error e => .error (.readError ("tweet recent search response read: " ++ e))
  | .ok buffer =>
    let rl := rateFromHeader headers
    let darl := dailyAppRateFromHeader headers
    let durl := dailyUserRateFromHeader headers
    if statusCode ≠ 200 then
      match buffer.asErrorResponse with
      | .error _ => .error (.httpError statusCode rl darl durl)
      | .ok e => .error (.errorResponse
          { e with StatusCode := statusCode, RateLimit := rl,
                   DailyAppRateLimit := darl, DailyUserRateLimit := durl })
    else
      match buffer.asTweetRaw with
      | .error err => .error (.responseDecodeError "tweet recent search" err rl)
      | .ok raw =>
        match buffer.asMeta with
        | .error err => .error (.responseDecodeError "tweet recent search" err rl)
        | .ok meta => .ok { Raw := raw, Meta := meta, RateLimit := rl }

/-! ## Helper lemmas -/

theorem string_length_eq_zero_iff (s : String) : s.length = 0 ↔ s = "" := by
  constructor
  · intro h
    cases s with
    | mk cs =>
      cases cs with
      | nil => rfl
      | cons c cs' => simp [String.length] at h
  · intro h
    subst h
    rfl

theorem values_get_add (q : Values) (k' v k : String) :
    (q.add k' v).get k = if k = k' then q.get k ++ [v] else q.get k := by
  induction q with
  | nil =>
    by_cases h : k = k'
    · subst h; simp [Values.add, Values.get]
    · simp [Values.add, Values.get, h, Ne.symm h]
  | cons p rest ih =>
    by_cases hp : p.1 = k'
    · by_cases hk : p.1 = k
      · subst hp; subst hk; simp [Values.add, Values.get]
      · subst hp
        have hkk : ¬k = p.1 := fun e => hk e.symm
        simp [Values.add, Values.get, hk, hkk]
    · by_cases hk : p.1 = k
      · subst hk
        simp [Values.add, Values.get, hp, fun e : p.1 = k' => hp e]
      · simp [Values.add, Values.get, hp, hk, ih]

theorem values_get_ite_add (q : Values) (c : Prop) [Decidable c] (k' v k : String) :
    (if c then q.add k' v else q).get k =
      q.get k ++ (if k = k' then (if c then [v] else []) else []) := by
  by_cases hc : c <;> by_cases hk : k = k' <;>
    simp [hc, hk, values_get_add]

theorem recent_get (t : TweetRecentSearchOpts) (q0 : Values) (k : String) :
    (t.addQueryValues q0).get k = q0.get k ++ recentContribution t k := by
  simp only [TweetRecentSearchOpts.addQueryValues, recentContribution,
    values_get_ite_add, List.append_assoc]

theorem user_get (u : UserLookupOpts) (q0 : Values) (k : String) :
    (u.addQueryValues q0).get k = q0.get k ++ userContribution u k := by
  simp only [UserLookupOpts.addQueryValues, userContribution,
    values_get_ite_add, List.append_assoc]

theorem recent_addQueryValues_allZero (t : TweetRecentSearchOpts)
    (h : t.allZero) (q : Values) : t.addQueryValues q = q := by
  obtain ⟨h1, h2, h3, h4, h5, h6, h7, h8, h9, h10, h11, h12, h13⟩ := h
  simp [TweetRecentSearchOpts.addQueryValues, h1, h2, h3, h4, h5, h6, h7, h8,
    not_lt.mpr h9, h10, h11, h12, h13]

theorem user_addQueryValues_allZero (u : UserLookupOpts)
    (h : u.allZero) (q : Values) : u.addQueryValues q = q := by
  obtain ⟨h1, h2, h3⟩ := h
  simp [UserLookupOpts.addQueryValues, h1, h2, h3]

theorem rules_validate_none_iff (rs : tweetSearchStreamRules) :
    tweetSearchStreamRules.validate rs = none ↔ ∀ r ∈ rs, r.validate = none := by
  induction rs with
  | nil => simp [tweetSearchStreamRules.validate]
  | cons r rest ih =>
    cases hr : r.validate with
    | some e => simp [tweetSearchStreamRules.validate, hr]
    | none => simp [tweetSearchStreamRules.validate, hr, ih]

theorem rules_validate_first_invalid (l₁ : tweetSearchStreamRules)
    (bad : TweetSearchStreamRule) (l₂ : tweetSearchStreamRules)
    (h₁ : ∀ r ∈ l₁, r.validate = none) (hbad : bad.validate ≠ none) :
    tweetSearchStreamRules.validate (l₁ ++ bad :: l₂) = bad.validate := by
  induction l₁ with
  | nil =>
    cases hb : bad.validate with
    | some e => simp [tweetSearchStreamRules.validate, hb]
    | none => exact absurd hb hbad
  | cons a rest ih =>
    have ha : a.validate = none := h₁ a (List.mem_cons_self a rest)
    have hrest : ∀ r ∈ rest, r.validate = none := fun r hr => h₁ r (List.mem_cons_of_mem a hr)
    simpa [tweetSearchStreamRules.validate, ha] using ih hrest

theorem ruleIDs_validate_none_iff (ids : tweetSearchStreamRuleIDs) :
    tweetSearchStreamRuleIDs.validate ids = none ↔ ∀ i ∈ ids, i.validate = none := by
  induction ids with
  | nil => simp [tweetSearchStreamRuleIDs.validate]
  | cons i rest ih =>
    cases hi : i.validate with
    | some e => simp [tweetSearchStreamRuleIDs.validate, hi]
    | none => simp [tweetSearchStreamRuleIDs.validate, hi, ih]

theorem ruleIDs_validate_first_invalid (l₁ : tweetSearchStreamRuleIDs)
    (bad : TweetSearchStreamRuleID) (l₂ : tweetSearchStreamRuleIDs)
    (h₁ : ∀ i ∈ l₁, i.validate = none) (hbad : bad.validate ≠ none) :
    tweetSearchStreamRuleIDs.validate (l₁ ++ bad :: l₂) = bad.validate := by
  induction l₁ with
  | nil =>
    cases hb : bad.validate with
    | some e => simp [tweetSearchStreamRuleIDs.validate, hb]
    | none => exact absurd hb hbad
  | cons a rest ih =>
    have ha : a.validate = none := h₁ a (List.mem_cons_self a rest)
    have hrest : ∀ i ∈ rest, i.validate = none := fun i hi => h₁ i (List.mem_cons_of_mem a hi)
    simpa [tweetSearchStreamRuleIDs.validate, ha] using ih hrest

theorem char_toNat_valid (c : Char) :
    c.toNat < 0xD800 ∨ (0xDFFF < c.toNat ∧ c.toNat < 0x110000) := by
  rcases c.valid with h | ⟨h1, h2⟩
  · left
    exact h
  · right
    exact ⟨h1, h2⟩

theorem char_toNat_lt (c : Char) : c.toNat < 0x110000 := by
  rcases char_toNat_valid c with h | ⟨_, h2⟩ <;> omega

theorem char_eq_of_toNat_eq {a b : Char} (h : a.toNat = b.toNat) : a = b := by
  apply Char.eq_of_val_eq
  apply UInt32.eq_of_toBitVec_eq
  apply BitVec.eq_of_toNat_eq
  exact h

theorem toNat_ofNat_valid {n : Nat} (h : n.isValidChar) : (Char.ofNat n).toNat = n := by
  unfold Char.ofNat
  rw [dif_pos h]
  unfold Char.ofNatAux
  simp [Char.toNat, UInt32.toNat]

theorem utf8Bytes_lt_256 (c : Char) : ∀ b ∈ utf8Bytes c, b < 256 := by
  intro b hb
  have hv := char_toNat_lt c
  unfold utf8Bytes at hb
  split_ifs at hb with h1 h2 h3 <;> simp at hb <;> omega

theorem unhex_hexDigitChar (d : Nat) (h : d < 16) : unhex (hexDigitChar d) = some d := by
  interval_cases d <;> decide

theorem unreserved_facts {b : Nat} (h : isUnreservedByte b = true) :
    b < 0x80 ∧ b ≠ 37 ∧ b ≠ 43 ∧ b ≠ 38 ∧ b ≠ 61 ∧ b ≠ 59 ∧ b ≠ 32 := by
  simp [isUnreservedByte] at h
  omega

theorem unescape_escape_flat : ∀ (bs : List Nat), (∀ b ∈ bs, b < 256) →
    unescapeBytes ((bs.map escapeByte).flatten) = some bs := by
  intro bs
  induction bs with
  | nil => intro _; rfl
  | cons b rest ih =>
    intro h
    have hb : b < 256 := h b (by simp)
    have hrest := ih fun x hx => h x (by simp [hx])
    simp only [List.map_cons, List.flatten_cons]
    by_cases h1 : b = 32
    · have he : escapeByte b = ['+'] := by simp [escapeByte, h1]
      subst h1
      rw [he, List.cons_append, List.nil_append, unescapeBytes.eq_def]
      simp [hrest]
    · by_cases h2 : isUnreservedByte b = true
      · have he : escapeByte b = [Char.ofNat b] := by simp [escapeByte, h1, h2]
        obtain ⟨hlt, hne37, hne43, _, _, _, _⟩ := unreserved_facts h2
        have hbv : Nat.isValidChar b := Or.inl (by omega)
        have ht : (Char.ofNat b).toNat = b := toNat_ofNat_valid hbv
        have hne1 : Char.ofNat b ≠ '%' := by
          intro hh
          rw [hh] at ht
          exact hne37 (by simpa using ht.symm)
        have hne2 : Char.ofNat b ≠ '+' := by
          intro hh
          rw [hh] at ht
          exact hne43 (by simpa using ht.symm)
        have hbytes : utf8Bytes (Char.ofNat b) = [b] := by
          unfold utf8Bytes
          rw [ht, if_pos (by omega)]
        rw [he, List.cons_append, List.nil_append, unescapeBytes.eq_def]
        simp [hne1, hne2, hrest, hbytes]
      · have he : escapeByte b = ['%', hexDigitChar (b / 16 % 16), hexDigitChar (b % 16)] := by
          simp [escapeByte, h1, h2]
        have u1 : unhex (hexDigitChar (b / 16 % 16)) = some (b / 16 % 16) :=
          unhex_hexDigitChar _ (by omega)
        have u2 : unhex (hexDigitChar (b % 16)) = some (b % 16) :=
          unhex_hexDigitChar _ (by omega)
        have harith : 16 * (b / 16 % 16) + b % 16 = b := by omega
        rw [he, List.cons_append, List.cons_append, List.cons_append, List.nil_append,
          unescapeBytes.eq_def]
        simp [u1, u2, hrest, harith]

theorem utf8Decode_cons (b : Nat) (rest : List Nat) :
    utf8Decode (b :: rest) =
      if b < 0x80 then (utf8Decode rest).map fun cs => Char.ofNat b :: cs
      else if b < 0xC0 then none
      else if b < 0xE0 then
        match rest with
        | b1 :: rest1 =>
          if 0x80 ≤ b1 ∧ b1 < 0xC0 then
            let n := (b - 0xC0) * 0x40 + (b1 - 0x80)
            if 0x80 ≤ n ∧ n < 0x800 then
              (utf8Decode rest1).map fun cs => Char.ofNat n :: cs
            else none
          else none
        | [] => none
      else if b < 0xF0 then
        match rest with
        | b1 :: b2 :: rest2 =>
          if (0x80 ≤ b1 ∧ b1 < 0xC0) ∧ (0x80 ≤ b2 ∧ b2 < 0xC0) then
            let n := (b - 0xE0) * 0x1000 + (b1 - 0x80) * 0x40 + (b2 - 0x80)
            if (0x800 ≤ n ∧ n < 0x10000) ∧ ¬(0xD800 ≤ n ∧ n < 0xE000) then
              (utf8Decode rest2).map fun cs => Char.ofNat n :: cs
            else none
          else none
        | _ => none
      else if b < 0xF8 then
        match rest with
        | b1 :: b2 :: b3 :: rest3 =>
          if ((0x80 ≤ b1 ∧ b1 < 0xC0) ∧ (0x80 ≤ b2 ∧ b2 < 0xC0)) ∧
             (0x80 ≤ b3 ∧ b3 < 0xC0) then
            let n := (b - 0xF0) * 0x40000 + (b1 - 0x80) * 0x1000 +
                     (b2 - 0x80) * 0x40 + (b3 - 0x80)
            if 0x10000 ≤ n ∧ n < 0x110000 then
              (utf8Decode rest3).map fun cs => Char.ofNat n :: cs
            else none
          else none
        | _ => none
      else none := by
  cases rest with
  | nil => rfl
  | cons b1 r1 =>
    cases r1 with
    | nil => rfl
    | cons b2 r2 =>
      cases r2 with
      | nil => rfl
      | cons b3 r3 => rfl

set_option maxHeartbeats 1600000 in
theorem utf8Decode_utf8Bytes (c : Char) (rest : List Nat) :
    utf8Decode (utf8Bytes c ++ rest) = (utf8Decode rest).map fun cs => c :: cs := by
  have hv := char_toNat_valid c
  have hlt := char_toNat_lt c
  by_cases h1 : c.toNat < 0x80
  · have he : utf8Bytes c = [c.toNat] := by simp [utf8Bytes, h1]
    rw [he, List.cons_append, List.nil_append, utf8Decode_cons]
    simp [h1, Char.ofNat_toNat]
  · by_cases h2 : c.toNat < 0x800
    · have he : utf8Bytes c = [0xC0 + c.toNat / 0x40, 0x80 + c.toNat % 0x40] := by
        simp [utf8Bytes, h1, h2]
      have hn1 : ¬(0xC0 + c.toNat / 0x40 < 0x80) := by omega
      have hn2 : ¬(0xC0 + c.toNat / 0x40 < 0xC0) := by omega
      have hn3 : 0xC0 + c.toNat / 0x40 < 0xE0 := by omega
      have hb1 : 0x80 ≤ 0x80 + c.toNat % 0x40 ∧ 0x80 + c.toNat % 0x40 < 0xC0 := by omega
      have harith : (0xC0 + c.toNat / 0x40 - 0xC0) * 0x40 + (0x80 + c.toNat % 0x40 - 0x80)
          = c.toNat := by omega
      have hr : 0x80 ≤ c.toNat ∧ c.toNat < 0x800 := by omega
      have harith2 : c.toNat / 64 * 64 + c.toNat % 64 = c.toNat := by omega
      rw [he, List.cons_append, List.cons_append, List.nil_append, utf8Decode_cons]
      simp [hn1, hn2, hn3, hb1, harith, harith2, hr, Char.ofNat_toNat]
    · by_cases h3 : c.toNat < 0x10000
      · have he : utf8Bytes c = [0xE0 + c.toNat / 0x1000,
            0x80 + (c.toNat / 0x40) % 0x40, 0x80 + c.toNat % 0x40] := by
          simp [utf8Bytes, h1, h2, h3]
        have hn1 : ¬(0xE0 + c.toNat / 0x1000 < 0x80) := by omega
        have hn2 : ¬(0xE0 + c.toNat / 0x1000 < 0xC0) := by omega
        have hn3 : ¬(0xE0 + c.toNat / 0x1000 < 0xE0) := by omega
        have hn4 : 0xE0 + c.toNat / 0x1000 < 0xF0 := by omega
        have hb1 : 0x80 ≤ 0x80 + (c.toNat / 0x40) % 0x40
            ∧ 0x80 + (c.toNat / 0x40) % 0x40 < 0xC0 := by omega
        have hb2 : 0x80 ≤ 0x80 + c.toNat % 0x40 ∧ 0x80 + c.toNat % 0x40 < 0xC0 := by omega
        have harith : (0xE0 + c.toNat / 0x1000 - 0xE0) * 0x1000
            + (0x80 + (c.toNat / 0x40) % 0x40 - 0x80) * 0x40
            + (0x80 + c.toNat % 0x40 - 0x80) = c.toNat := by omega
        have hr : 0x800 ≤ c.toNat ∧ c.toNat < 0x10000 := by omega
        have hs : ¬(0xD800 ≤ c.toNat ∧ c.toNat < 0xE000) := by
          rcases hv with hvl | ⟨hv1, hv2⟩ <;> omega
        have harith2 : c.toNat / 4096 * 4096 + c.toNat / 64 % 64 * 64 + c.toNat % 64
            = c.toNat := by omega
        rw [he, List.cons_append, List.cons_append, List.cons_append, List.nil_append,
          utf8Decode_cons]
        simp [hn1, hn2, hn3, hn4, hb1, hb2, harith, harith2, hr, hs, Char.ofNat_toNat]
      · have he : utf8Bytes c = [0xF0 + c.toNat / 0x40000,
            0x80 + (c.toNat / 0x1000) % 0x40, 0x80 + (c.toNat / 0x40) % 0x40,
            0x80 + c.toNat % 0x40] := by
          simp [utf8Bytes, h1, h2, h3]
        have hn1 : ¬(0xF0 + c.toNat / 0x40000 < 0x80) := by omega
        have hn2 : ¬(0xF0 + c.toNat / 0x40000 < 0xC0) := by omega
        have hn3 : ¬(0xF0 + c.toNat / 0x40000 < 0xE0) := by omega
        have hn4 : ¬(0xF0 + c.toNat / 0x40000 < 0xF0) := by omega
        have hn5 : 0xF0 + c.toNat / 0x40000 < 0xF8 := by omega
        have hb1 : 0x80 ≤ 0x80 + (c.toNat / 0x1000) % 0x40
            ∧ 0x80 + (c.toNat / 0x1000) % 0x40 < 0xC0 := by omega
        have hb2 : 0x80 ≤ 0x80 + (c.toNat / 0x40) % 0x40
            ∧ 0x80 + (c.toNat / 0x40) % 0x40 < 0xC0 := by omega
        have hb3 : 0x80 ≤ 0x80 + c.toNat % 0x40 ∧ 0x80 + c.toNat % 0x40 < 0xC0 := by omega
        have harith : (0xF0 + c.toNat / 0x40000 - 0xF0) * 0x40000
            + (0x80 + (c.toNat / 0x1000) % 0x40 - 0x80) * 0x1000
            + (0x80 + (c.toNat / 0x40) % 0x40 - 0x80) * 0x40
            + (0x80 + c.toNat % 0x40 - 0x80) = c.toNat := by omega
        have hr : 0x10000 ≤ c.toNat ∧ c.toNat < 0x110000 := by omega
        have harith2 : c.toNat / 262144 * 262144 + c.toNat / 4096 % 64 * 4096
            + c.toNat / 64 % 64 * 64 + c.toNat % 64 = c.toNat := by omega
        rw [he, List.cons_append, List.cons_append, List.cons_append, List.cons_append,
          List.nil_append, utf8Decode_cons]
        simp [hn1, hn2, hn3, hn4, hn5, hb1, hb2, hb3, harith, harith2, hr, Char.ofNat_toNat]

theorem utf8Decode_flat : ∀ (cs : List Char),
    utf8Decode ((cs.map utf8Bytes).flatten) = some cs := by
  intro cs
  induction cs with
  | nil => rfl
  | cons c rest ih =>
    simp only [List.map_cons, List.flatten_cons]
    rw [utf8Decode_utf8Bytes, ih]
    rfl

theorem string_mk_data (s : String) : String.mk s.data = s := by
  cases s
  rfl

theorem queryUnescape_queryEscape (s : String) :
    queryUnescape (queryEscape s).data = some s := by
  have hb : ∀ b ∈ (s.data.map utf8Bytes).flatten, b < 256 := by
    intro b hb
    rcases List.mem_flatten.mp hb with ⟨l, hl, hbl⟩
    rcases List.mem_map.mp hl with ⟨c, _, rfl⟩
    exact utf8Bytes_lt_256 c b hbl
  unfold queryUnescape queryEscape
  have hd : (String.mk (((s.data.map utf8Bytes).flatten.map escapeByte).flatten)).data
      = ((s.data.map utf8Bytes).flatten.map escapeByte).flatten := rfl
  rw [hd, unescape_escape_flat _ hb]
  simp [utf8Decode_flat, string_mk_data]
theorem charListLt_nil_right (a : List Char) : charListLt a [] = false := by
  cases a <;> rfl

theorem charListLt_trans : ∀ (a b c : List Char),
    charListLt a b = true → charListLt b c = true → charListLt a c = true := by
  intro a
  induction a with
  | nil =>
    intro b c _ hbc
    cases c with
    | nil => rw [charListLt_nil_right] at hbc; exact absurd hbc (by simp)
    | cons c cs => rfl
  | cons a as ih =>
    intro b c hab hbc
    cases b with
    | nil => rw [charListLt_nil_right] at hab; exact absurd hab (by simp)
    | cons b bs =>
      cases c with
      | nil => rw [charListLt_nil_right] at hbc; exact absurd hbc (by simp)
      | cons c cs =>
        simp only [charListLt, Bool.or_eq_true, Bool.and_eq_true, decide_eq_true_eq,
          beq_iff_eq] at hab hbc ⊢
        rcases hab with hab | ⟨hab1, hab2⟩
        · rcases hbc with hbc | ⟨hbc1, hbc2⟩
          · left; omega
          · left; omega
        · rcases hbc with hbc | ⟨hbc1, hbc2⟩
          · left; omega
          · right; exact ⟨by omega, ih bs cs hab2 hbc2⟩

theorem charListLt_total : ∀ (a b : List Char), a ≠ b →
    charListLt a b = true ∨ charListLt b a = true := by
  intro a
  induction a with
  | nil =>
    intro b hb
    cases b with
    | nil => exact absurd rfl hb
    | cons c cs => left; rfl
  | cons a as ih =>
    intro b hb
    cases b with
    | nil => right; rfl
    | cons b bs =>
      by_cases hab : a.toNat < b.toNat
      · left; simp [charListLt, hab]
      · by_cases hba : b.toNat < a.toNat
        · right; simp [charListLt, hba]
        · have heq : a = b := char_eq_of_toNat_eq (by omega)
          subst heq
          have hne : as ≠ bs := fun h => hb (by rw [h])
          rcases ih bs hne with h | h
          · left; simp [charListLt, h]
          · right; simp [charListLt, h]

theorem strLt_trans {a b c : String} (h1 : strLt a b = true) (h2 : strLt b c = true) :
    strLt a c = true :=
  charListLt_trans a.data b.data c.data h1 h2

theorem strLt_total {a b : String} (h : a ≠ b) : strLt a b = true ∨ strLt b a = true :=
  charListLt_total a.data b.data fun hd => h (String.ext hd)

theorem values_add_of_not_hasKey (q : Values) (k v : String)
    (h : q.hasKey k = false) : q.add k v = q ++ [(k, [v])] := by
  induction q with
  | nil => rfl
  | cons p rest ih =>
    simp only [Values.hasKey, List.any_cons, Bool.or_eq_false_iff, decide_eq_false_iff_not]
      at h
    simp [Values.add, h.1, ih (by simp [Values.hasKey, h.2])]

theorem values_add_append_last (q : Values) (k v : String) (vs : List String)
    (h : q.hasKey k = false) : (q ++ [(k, vs)]).add k v = q ++ [(k, vs ++ [v])] := by
  induction q with
  | nil => simp [Values.add]
  | cons p rest ih =>
    simp only [Values.hasKey, List.any_cons, Bool.or_eq_false_iff, decide_eq_false_iff_not]
      at h
    simp [Values.add, h.1, ih (by simp [Values.hasKey, h.2])]

theorem mem_values_add (q : Values) (k v : String) :
    ∀ x ∈ q.add k v, x ∈ q ∨ x.1 = k := by
  induction q with
  | nil => simp [Values.add]
  | cons p rest ih =>
    intro x hx
    by_cases hp : p.1 = k
    · simp only [Values.add, if_pos hp, List.mem_cons] at hx
      rcases hx with rfl | hx
      · right; exact hp
      · left; simp [hx]
    · simp only [Values.add, if_neg hp, List.mem_cons] at hx
      rcases hx with rfl | hx
      · left; simp
      · rcases ih x hx with h | h
        · left; simp [h]
        · right; exact h

theorem values_add_distinct (q : Values) (k v : String)
    (h : q.Pairwise fun p₁ p₂ => p₁.1 ≠ p₂.1) :
    (q.add k v).Pairwise fun p₁ p₂ => p₁.1 ≠ p₂.1 := by
  induction q with
  | nil => simp [Values.add]
  | cons p rest ih =>
    rcases h with _ | ⟨hhead, htail⟩
    by_cases hp : p.1 = k
    · simp only [Values.add, if_pos hp]
      exact List.Pairwise.cons hhead htail
    · simp only [Values.add, if_neg hp]
      refine List.Pairwise.cons ?_ (ih htail)
      intro x hx
      rcases mem_values_add rest k v x hx with hm | hm
      · exact hhead x hm
      · rw [hm]; exact hp
    
theorem values_add_ne_nil_values (q : Values) (k v : String)
    (h : ∀ p ∈ q, p.2 ≠ []) : ∀ p ∈ q.add k v, p.2 ≠ [] := by
  induction q with
  | nil => simp [Values.add]
  | cons p rest ih =>
    intro x hx
    by_cases hp : p.1 = k
    · simp only [Values.add, if_pos hp, List.mem_cons] at hx
      rcases hx with rfl | hx
      · simp
      · exact h x (by simp [hx])
    · simp only [Values.add, if_neg hp, List.mem_cons] at hx
      rcases hx with rfl | hx
      · exact h x (by simp)
      · exact ih (fun y hy => h y (by simp [hy])) x hx

theorem parseQueryItem_cases (m : Values) (item : List Char) :
    parseQueryItem m item = m ∨ ∃ k v, parseQueryItem m item = m.add k v := by
  unfold parseQueryItem
  split_ifs
  · left; rfl
  · left; rfl
  · cases h1 : queryUnescape (cutOn '=' item).1 with
    | none => left; simp [h1]
    | some k =>
      cases h2 : queryUnescape (cutOn '=' item).2 with
      | none => left; simp [h1, h2]
      | some v => right; exact ⟨k, v, by simp [h1, h2]⟩

theorem parseQuery_inv (s : String) :
    ((parseQuery s).Pairwise fun p₁ p₂ => p₁.1 ≠ p₂.1) ∧ ∀ p ∈ parseQuery s, p.2 ≠ [] := by
  unfold parseQuery
  generalize splitListOn '&' s.data = items
  induction items using List.reverseRecOn with
  | nil => simp
  | append_singleton items item ih =>
    rw [List.foldl_append]
    rcases parseQueryItem_cases (List.foldl parseQueryItem [] items) item with h | ⟨k, v, h⟩
    · simpa [h] using ih
    · rw [List.foldl_cons, List.foldl_nil, h]
      exact ⟨values_add_distinct _ k v ih.1, values_add_ne_nil_values _ k v ih.2⟩

theorem insertByKey_perm (p : String × List String) (l : Values) :
    (insertByKey p l).Perm (p :: l) := by
  induction l with
  | nil => exact List.Perm.refl _
  | cons q rest ih =>
    by_cases h : strLt p.1 q.1
    · simp [insertByKey, h]
    · simp only [insertByKey, if_neg h]
      exact (ih.cons q).trans (List.Perm.swap p q rest)

theorem sortByKey_perm (q : Values) : (sortByKey q).Perm q := by
  induction q with
  | nil => exact List.Perm.refl _
  | cons x xs ih =>
    have : sortByKey (x :: xs) = insertByKey x (sortByKey xs) := rfl
    rw [this]
    exact (insertByKey_perm x (sortByKey xs)).trans (ih.cons x)

theorem mem_insertByKey {x p : String × List String} {l : Values}
    (h : x ∈ insertByKey p l) : x = p ∨ x ∈ l := by
  have := (insertByKey_perm p l).mem_iff.mp h
  simpa using this

theorem insertByKey_sorted (p : String × List String) (l : Values)
    (hl : l.Pairwise fun a b => strLt a.1 b.1 = true) (hne : ∀ y ∈ l, p.1 ≠ y.1) :
    (insertByKey p l).Pairwise fun a b => strLt a.1 b.1 = true := by
  induction l with
  | nil => simp [insertByKey]
  | cons q rest ih =>
    rcases hl with _ | ⟨hq, hrest⟩
    by_cases h : strLt p.1 q.1
    · simp only [insertByKey, if_pos h]
      refine List.Pairwise.cons ?_ (List.Pairwise.cons hq hrest)
      intro y hy
      rcases List.mem_cons.mp hy with rfl | hy
      · exact h
      · exact strLt_trans h (hq y hy)
    · simp only [insertByKey, if_neg h]
      have hqp : strLt q.1 p.1 = true := by
        rcases strLt_total (hne q (by simp)) with h1 | h1
        · exact absurd h1 h
        · exact h1
      refine List.Pairwise.cons ?_ (ih hrest fun y hy => hne y (by simp [hy]))
      intro y hy
      rcases mem_insertByKey hy with rfl | hy
      · exact hqp
      · exact hq y hy

theorem sortByKey_sorted (q : Values) (h : q.Pairwise fun p₁ p₂ => p₁.1 ≠ p₂.1) :
    (sortByKey q).Pairwise fun a b => strLt a.1 b.1 = true := by
  induction q with
  | nil => simp [sortByKey]
  | cons x xs ih =>
    rcases h with _ | ⟨hx, hxs⟩
    have : sortByKey (x :: xs) = insertByKey x (sortByKey xs) := rfl
    rw [this]
    refine insertByKey_sorted x (sortByKey xs) (ih hxs) ?_
    intro y hy
    exact hx y ((sortByKey_perm xs).mem_iff.mp hy)

theorem sortByKey_of_sorted (l : Values)
    (h : l.Pairwise fun a b => strLt a.1 b.1 = true) : sortByKey l = l := by
  induction l with
  | nil => rfl
  | cons x xs ih =>
    rcases h with _ | ⟨hx, hxs⟩
    have h1 : sortByKey (x :: xs) = insertByKey x (sortByKey xs) := rfl
    rw [h1, ih hxs]
    cases xs with
    | nil => rfl
    | cons y ys => simp [insertByKey, hx y (by simp)]

theorem sortByKey_idem (q : Values) (h : q.Pairwise fun p₁ p₂ => p₁.1 ≠ p₂.1) :
    sortByKey (sortByKey q) = sortByKey q :=
  sortByKey_of_sorted _ (sortByKey_sorted q h)

theorem splitListOn_ne_nil (sep : Char) (l : List Char) : splitListOn sep l ≠ [] := by
  cases l with
  | nil => simp [splitListOn]
  | cons c rest =>
    simp only [splitListOn]
    cases splitListOn sep rest with
    | nil => simp
    | cons grp gs =>
      by_cases h : c = sep <;> simp [h]

theorem splitListOn_no_sep (sep : Char) (x : List Char) (h : sep ∉ x) :
    splitListOn sep x = [x] := by
  induction x with
  | nil => rfl
  | cons c rest ih =>
    have hc : ¬c = sep := fun hc => h (by simp [hc])
    have hr := ih fun hr => h (by simp [hr])
    simp [splitListOn, hr, hc]

theorem splitListOn_append (sep : Char) (x rest : List Char) (h : sep ∉ x) :
    splitListOn sep (x ++ sep :: rest) = x :: splitListOn sep rest := by
  induction x with
  | nil =>
    simp only [List.nil_append, splitListOn]
    cases hs : splitListOn sep rest with
    | nil => exact absurd hs (splitListOn_ne_nil sep rest)
    | cons grp gs => simp
  | cons c x' ih =>
    have hc : ¬c = sep := fun hc => h (by simp [hc])
    have hr := ih fun hr => h (by simp [hr])
    simp only [List.cons_append, splitListOn, List.append_eq]
    rw [hr]
    simp [hc]

theorem cutOn_append (sep : Char) (x y : List Char) (h : sep ∉ x) :
    cutOn sep (x ++ sep :: y) = (x, y) := by
  induction x with
  | nil => simp [cutOn]
  | cons c x' ih =>
    have hc : ¬c = sep := fun hc => h (by simp [hc])
    have hr := ih fun hr => h (by simp [hr])
    simp [cutOn, hc, hr]

theorem foldl_add_same_key (k : String) (acc : Values) (h : acc.hasKey k = false) :
    ∀ (vs : List String) (pre : List String),
      List.foldl (fun m pr => m.add pr.1 pr.2) (acc ++ [(k, pre)]) (vs.map fun v => (k, v))
        = acc ++ [(k, pre ++ vs)] := by
  intro vs
  induction vs with
  | nil => intro pre; simp
  | cons v rest ih =>
    intro pre
    simp only [List.map_cons, List.foldl_cons]
    rw [values_add_append_last acc k v pre h, ih (pre ++ [v])]
    simp

theorem foldl_add_valuesPairs : ∀ (q acc : Values),
    (q.Pairwise fun p₁ p₂ => p₁.1 ≠ p₂.1) → (∀ p ∈ q, p.2 ≠ []) →
    (∀ p ∈ q, acc.hasKey p.1 = false) →
    List.foldl (fun m pr => m.add pr.1 pr.2) acc (valuesPairs q) = acc ++ q := by
  intro q
  induction q with
  | nil => intro acc _ _ _; simp [valuesPairs]
  | cons p rest ih =>
    intro acc hdist hne hkeys
    rcases hdist with _ | ⟨hp, hrest⟩
    have hpacc : acc.hasKey p.1 = false := hkeys p (by simp)
    obtain ⟨v, vs, hv⟩ : ∃ v vs, p.2 = v :: vs := by
      cases hpv : p.2 with
      | nil => exact absurd hpv (hne p (by simp))
      | cons v vs => exact ⟨v, vs, rfl⟩
    simp only [valuesPairs, List.map_cons, List.flatten_cons, List.foldl_append]
    rw [hv]
    simp only [List.map_cons, List.foldl_cons]
    rw [values_add_of_not_hasKey acc p.1 v hpacc, foldl_add_same_key p.1 acc hpacc vs [v]]
    have hacc' : ∀ x ∈ rest, (acc ++ [(p.1, v :: vs)]).hasKey x.1 = false := by
      intro x hx
      simp only [Values.hasKey, List.any_append, List.any_cons, List.any_nil,
        Bool.or_eq_false_iff, decide_eq_false_iff_not]
      refine ⟨?_, ?_, trivial⟩
      · have := hkeys x (by simp [hx])
        simpa [Values.hasKey] using this
      · exact fun he => (hp x hx) he
    have := ih (acc ++ [(p.1, v :: vs)]) hrest (fun x hx => hne x (by simp [hx])) hacc'
    simp only [List.singleton_append]
    rw [show valuesPairs rest = (rest.map fun p => p.2.map fun v => (p.1, v)).flatten from rfl]
      at this
    rw [this, ← hv]
    simp

theorem intercalate_go_data (asl : List String) : ∀ (acc : String),
    (String.intercalate.go acc "&" asl).data
      = acc.data ++ (asl.map fun y => '&' :: y.data).flatten := by
  induction asl with
  | nil => intro acc; simp [String.intercalate.go]
  | cons b bs ih =>
    intro acc
    simp only [String.intercalate.go, ih, List.map_cons, List.flatten_cons]
    rw [String.data_append, String.data_append]
    simp

theorem intercalate_amp_data (x : String) (xs : List String) :
    (String.intercalate "&" (x :: xs)).data
      = x.data ++ (xs.map fun y => '&' :: y.data).flatten := by
  simp [String.intercalate, intercalate_go_data]

theorem escape_chars_not_special (s : String) :
    ∀ ch ∈ (queryEscape s).data, ch ≠ '&' ∧ ch ≠ '=' ∧ ch ≠ ';' := by
  intro ch hch
  have hd : (queryEscape s).data = ((s.data.map utf8Bytes).flatten.map escapeByte).flatten :=
    rfl
  rw [hd] at hch
  rcases List.mem_flatten.mp hch with ⟨l, hl, hcl⟩
  rcases List.mem_map.mp hl with ⟨b, hb, rfl⟩
  have hb256 : b < 256 := by
    rcases List.mem_flatten.mp hb with ⟨l2, hl2, hbl2⟩
    rcases List.mem_map.mp hl2 with ⟨c, _, rfl⟩
    exact utf8Bytes_lt_256 c b hbl2
  by_cases h1 : b = 32
  · subst h1
    have : escapeByte 32 = ['+'] := by simp [escapeByte]
    rw [this] at hcl
    simp at hcl
    subst hcl
    exact ⟨by decide, by decide, by decide⟩
  · by_cases h2 : isUnreservedByte b = true
    · have : escapeByte b = [Char.ofNat b] := by simp [escapeByte, h1, h2]
      rw [this] at hcl
      simp at hcl
      subst hcl
      obtain ⟨hlt, _, _, h38, h61, h59, _⟩ := unreserved_facts h2
      have hbv : Nat.isValidChar b := Or.inl (by omega)
      have ht : (Char.ofNat b).toNat = b := toNat_ofNat_valid hbv
      refine ⟨?_, ?_, ?_⟩ <;> intro he <;> rw [he] at ht
      · exact h38 (by simpa using ht.symm)
      · exact h61 (by simpa using ht.symm)
      · exact h59 (by simpa using ht.symm)
    · have : escapeByte b = ['%', hexDigitChar (b / 16 % 16), hexDigitChar (b % 16)] := by
        simp [escapeByte, h1, h2]
      rw [this] at hcl
      simp at hcl
      have hhex : ∀ d : Nat, d < 16 →
          hexDigitChar d ≠ '&' ∧ hexDigitChar d ≠ '=' ∧ hexDigitChar d ≠ ';' := by
        intro d hd
        interval_cases d <;> exact ⟨by decide, by decide, by decide⟩
      rcases hcl with rfl | rfl | rfl
      · exact ⟨by decide, by decide, by decide⟩
      · exact hhex _ (by omega)
      · exact hhex _ (by omega)

theorem flatten_map_seg (l : Values) :
    (l.map fun p => p.2.map fun v => queryEscape p.1 ++ "=" ++ queryEscape v).flatten
      = (valuesPairs l).map fun pr => queryEscape pr.1 ++ "=" ++ queryEscape pr.2 := by
  induction l with
  | nil => rfl
  | cons p rest ih =>
    simp only [valuesPairs, List.map_cons, List.flatten_cons, List.map_append,
      List.map_map]
    rw [show valuesPairs rest = (rest.map fun p => p.2.map fun v => (p.1, v)).flatten
      from rfl] at ih
    rw [ih]
    rfl

theorem segStr_data (pr : String × String) :
    (queryEscape pr.1 ++ "=" ++ queryEscape pr.2).data = segChars pr := by
  rw [String.data_append, String.data_append]
  simp [segChars]

theorem segChars_no_amp (pr : String × String) : '&' ∉ segChars pr := by
  intro h
  rcases List.mem_append.mp h with h1 | h1
  · exact (escape_chars_not_special pr.1 '&' h1).1 rfl
  · rcases List.mem_cons.mp h1 with h2 | h2
    · exact absurd h2.symm (by decide)
    · exact (escape_chars_not_special pr.2 '&' h2).1 rfl

theorem segChars_no_semi (pr : String × String) :
    (segChars pr).any (fun c => c = ';') = false := by
  rw [List.any_eq_false]
  intro c hc
  simp only [decide_eq_true_eq]
  rcases List.mem_append.mp hc with h1 | h1
  · exact (escape_chars_not_special pr.1 c h1).2.2
  · rcases List.mem_cons.mp h1 with h2 | h2
    · subst h2; decide
    · exact (escape_chars_not_special pr.2 c h2).2.2

theorem parseQueryItem_segChars (m : Values) (pr : String × String) :
    parseQueryItem m (segChars pr) = m.add pr.1 pr.2 := by
  have hsemi := segChars_no_semi pr
  have hempty : (segChars pr).isEmpty = false := by
    unfold segChars
    cases h : (queryEscape pr.1).data <;> simp [h]
  have hcut : cutOn '=' (segChars pr) = ((queryEscape pr.1).data, (queryEscape pr.2).data) := by
    unfold segChars
    exact cutOn_append '=' _ _ fun h => (escape_chars_not_special pr.1 '=' h).2.1 rfl
  unfold parseQueryItem
  rw [if_neg (by simp [hsemi]), if_neg (by simp [hempty]), hcut]
  simp [queryUnescape_queryEscape]

theorem splitListOn_joined (x : List Char) (xs : List (List Char))
    (hx : '&' ∉ x) (hxs : ∀ y ∈ xs, '&' ∉ y) :
    splitListOn '&' (x ++ (xs.map fun y => '&' :: y).flatten) = x :: xs := by
  induction xs generalizing x with
  | nil => simpa using splitListOn_no_sep '&' x hx
  | cons y ys ih =>
    simp only [List.map_cons, List.flatten_cons, List.cons_append]
    rw [splitListOn_append '&' x _ hx]
    rw [ih y (hxs y (by simp)) fun z hz => hxs z (by simp [hz])]

theorem parseQuery_encode (q : Values)
    (hdist : q.Pairwise fun p₁ p₂ => p₁.1 ≠ p₂.1) (hne : ∀ p ∈ q, p.2 ≠ []) :
    parseQuery (Values.encode q) = sortByKey q := by
  by_cases hq : q = []
  · subst hq; rfl
  · have hperm := sortByKey_perm q
    have hdist' : (sortByKey q).Pairwise fun p₁ p₂ => p₁.1 ≠ p₂.1 :=
      (hperm.pairwise_iff fun h => Ne.symm h).mpr hdist
    have hne' : ∀ p ∈ sortByKey q, p.2 ≠ [] := fun p hp => hne p (hperm.mem_iff.mp hp)
    have hQne : sortByKey q ≠ [] := by
      intro h
      have h2 : ([] : Values).Perm q := h ▸ hperm
      exact hq (List.Perm.eq_nil h2.symm)
    obtain ⟨pr0, prs, hP⟩ : ∃ pr0 prs, valuesPairs (sortByKey q) = pr0 :: prs := by
      cases hQ : sortByKey q with
      | nil => exact absurd hQ hQne
      | cons p rest =>
        have hpne := hne' p (by rw [hQ]; simp)
        cases hPv : p.2 with
        | nil => exact absurd hPv hpne
        | cons v vs =>
          refine ⟨(p.1, v), (vs.map fun v2 => (p.1, v2)) ++ valuesPairs rest, ?_⟩
          simp [valuesPairs, hPv]
    have hdata : (Values.encode q).data
        = segChars pr0 ++ ((prs.map fun pr => '&' :: segChars pr).flatten) := by
      show (String.intercalate "&"
        ((sortByKey q).map fun p => p.2.map fun v =>
          queryEscape p.1 ++ "=" ++ queryEscape v).flatten).data = _
      rw [flatten_map_seg, hP, List.map_cons, intercalate_amp_data, segStr_data]
      rw [List.map_map]
      congr 1
      refine congrArg List.flatten ?_
      apply List.map_congr_left
      intro pr _
      simp [Function.comp, segStr_data, segChars]
    have hxs : ∀ y ∈ prs.map segChars, '&' ∉ y := by
      intro y hy
      rcases List.mem_map.mp hy with ⟨pr, _, rfl⟩
      exact segChars_no_amp pr
    have hsplit : splitListOn '&' (Values.encode q).data
        = segChars pr0 :: prs.map segChars := by
      rw [hdata]
      have h2 := splitListOn_joined (segChars pr0) (prs.map segChars)
        (segChars_no_amp pr0) hxs
      rw [List.map_map] at h2
      simpa [Function.comp] using h2
    show List.foldl parseQueryItem [] (splitListOn '&' (Values.encode q).data) = sortByKey q
    rw [hsplit]
    rw [show segChars pr0 :: prs.map segChars = (pr0 :: prs).map segChars from rfl]
    rw [← hP, List.foldl_map]
    have hstep : (fun (m : Values) (pr : String × String) => parseQueryItem m (segChars pr))
        = fun m pr => m.add pr.1 pr.2 := by
      funext m pr
      exact parseQueryItem_segChars m pr
    rw [hstep]
    have hfold := foldl_add_valuesPairs (sortByKey q) [] hdist' hne' fun p _ => rfl
    simpa using hfold

theorem encode_sortByKey (q : Values)
    (hdist : q.Pairwise fun p₁ p₂ => p₁.1 ≠ p₂.1) :
    Values.encode (sortByKey q) = Values.encode q := by
  show String.intercalate "&" _ = String.intercalate "&" _
  rw [show sortByKey (sortByKey q) = sortByKey q from sortByKey_idem q hdist]

/-! ## Claim theorems -/

/-- C1: for every search options value (recent search and user lookup),
each optional field is emitted in the encoded query iff it is non-zero for
its type (non-empty list/string, non-zero time, positive integer), and
when emitted it appears exactly once under its documented key, starting
from a request with no query parameters. -/
theorem claim1_optional_field_emission (t : TweetRecentSearchOpts) (u : UserLookupOpts) :
    ((t.addQueryValues []).get "expansions"
      = if t.Expansions.length > 0 then
          [String.intercalate "," (expansionStringArray t.Expansions)] else [])
  ∧ ((t.addQueryValues []).get "media.fields"
      = if t.MediaFields.length > 0 then
          [String.intercalate "," (mediaFieldStringArray t.MediaFields)] else [])
  ∧ ((t.addQueryValues []).get "place.fields"
      = if t.PlaceFields.length > 0 then
          [String.intercalate "," (placeFieldStringArray t.PlaceFields)] else [])
  ∧ ((t.addQueryValues []).get "poll.fields"
      = if t.PollFields.length > 0 then
          [String.intercalate "," (pollFieldStringArray t.PollFields)] else [])
  ∧ ((t.addQueryValues []).get "tweet.fields"
      = if t.TweetFields.length > 0 then
          [String.intercalate "," (tweetFieldStringArray t.TweetFields)] else [])
  ∧ ((t.addQueryValues []).get "user.fields"
      = if t.UserFields.length > 0 then
          [String.intercalate "," (userFieldStringArray t.UserFields)] else [])
  ∧ ((t.addQueryValues []).get "start_time"
      = if !t.StartTime.IsZero then [t.StartTime.formatRFC3339] else [])
  ∧ ((t.addQueryValues []).get "end_time"
      = if !t.EndTime.IsZero then [t.EndTime.formatRFC3339] else [])
  ∧ ((t.addQueryValues []).get "max_results"
      = if t.MaxResults > 0 then [toString t.MaxResults] else [])
  ∧ ((t.addQueryValues []).get "next_token"
      = if t.NextToken.length > 0 then [t.NextToken] else [])
  ∧ ((t.addQueryValues []).get "since_id"
      = if t.SinceID.length > 0 then [t.SinceID] else [])
  ∧ ((t.addQueryValues []).get "until_id"
      = if t.UntilID.length > 0 then [t.UntilID] else [])
  ∧ ((t.addQueryValues []).get "sort_order"
      = if t.SortOrder.length > 0 then [t.SortOrder] else [])
  ∧ ((u.addQueryValues []).get "expansions"
      = if u.Expansions.length > 0 then
          [String.intercalate "," (expansionStringArray u.Expansions)] else [])
  ∧ ((u.addQueryValues []).get "tweet.fields"
      = if u.TweetFields.length > 0 then
          [String.intercalate "," (tweetFieldStringArray u.TweetFields)] else [])
  ∧ ((u.addQueryValues []).get "user.fields"
      = if u.UserFields.length > 0 then
          [String.intercalate "," (userFieldStringArray u.UserFields)] else []) := by
  refine ⟨?_, ?_, ?_, ?_, ?_, ?_, ?_, ?_, ?_, ?_, ?_, ?_, ?_, ?_, ?_, ?_⟩ <;>
    simp [recent_get, user_get, recentContribution, userContribution, Values.get]

/-- C3: for every non-empty collection-valued field, the emitted query
value is the elements' string forms joined with `,` in exactly the order
supplied by the caller (order-preserving `List.map`, not sorted). -/
theorem claim3_collection_join_order (t : TweetRecentSearchOpts) (u : UserLookupOpts) :
    (t.Expansions ≠ [] → (t.addQueryValues []).get "expansions"
      = [String.intercalate "," (t.Expansions.map fun x => x.val)])
  ∧ (t.MediaFields ≠ [] → (t.addQueryValues []).get "media.fields"
      = [String.intercalate "," (t.MediaFields.map fun x => x.val)])
  ∧ (t.PlaceFields ≠ [] → (t.addQueryValues []).get "place.fields"
      = [String.intercalate "," (t.PlaceFields.map fun x => x.val)])
  ∧ (t.PollFields ≠ [] → (t.addQueryValues []).get "poll.fields"
      = [String.intercalate "," (t.PollFields.map fun x => x.val)])
  ∧ (t.TweetFields ≠ [] → (t.addQueryValues []).get "tweet.fields"
      = [String.intercalate "," (t.TweetFields.map fun x => x.val)])
  ∧ (t.UserFields ≠ [] → (t.addQueryValues []).get "user.fields"
      = [String.intercalate "," (t.UserFields.map fun x => x.val)])
  ∧ (u.Expansions ≠ [] → (u.addQueryValues []).get "expansions"
      = [String.intercalate "," (u.Expansions.map fun x => x.val)])
  ∧ (u.TweetFields ≠ [] → (u.addQueryValues []).get "tweet.fields"
      = [String.intercalate "," (u.TweetFields.map fun x => x.val)])
  ∧ (u.UserFields ≠ [] → (u.addQueryValues []).get "user.fields"
      = [String.intercalate "," (u.UserFields.map fun x => x.val)]) := by
  refine ⟨fun h => ?_, fun h => ?_, fun h => ?_, fun h => ?_, fun h => ?_,
    fun h => ?_, fun h => ?_, fun h => ?_, fun h => ?_⟩ <;>
    simp [recent_get, user_get, recentContribution, userContribution, Values.get,
      expansionStringArray, mediaFieldStringArray, placeFieldStringArray,
      pollFieldStringArray, tweetFieldStringArray, userFieldStringArray,
      List.length_pos, h]

/-- C3 witness: two expansions supplied in non-alphabetical order are
joined in exactly that order. -/
theorem claim3_witness :
    (TweetRecentSearchOpts.addQueryValues
        { Expansions := [⟨"geo.place_id"⟩, ⟨"author_id"⟩] } []).get "expansions"
      = ["geo.place_id,author_id"] := by
  have h := (claim3_collection_join_order
    { Expansions := [⟨"geo.place_id"⟩, ⟨"author_id"⟩] } {}).1 (by decide)
  simpa using h

/-- C8: a non-empty sort-order value is emitted verbatim under
`sort_order`, with no client-side validation restricting it to the two
enumerants. -/
theorem claim8_sort_order_verbatim (t : TweetRecentSearchOpts)
    (h : t.SortOrder ≠ "") :
    (t.addQueryValues []).get "sort_order" = [t.SortOrder] := by
  have hl : t.SortOrder.length > 0 := by
    cases hs : t.SortOrder with
    | mk cs =>
      cases cs with
      | nil => exact absurd hs h
      | cons c cs' => simp [String.length, hs]
  simp [recent_get, recentContribution, Values.get, hl]

/-- C8 witness: a value that is neither `recency` nor `relevancy` is
passed through unchanged. -/
theorem claim8_witness :
    ("bogus" : TweetSearchSortOrder) ≠ TweetSearchSortOrderRecency
  ∧ ("bogus" : TweetSearchSortOrder) ≠ TweetSearchSortOrderRelevancy
  ∧ (TweetRecentSearchOpts.addQueryValues { SortOrder := "bogus" } []).get "sort_order"
      = ["bogus"] :=
  ⟨by decide, by decide, claim8_sort_order_verbatim { SortOrder := "bogus" } (by decide)⟩

/-- C4: `validate` on a stream rule returns a ParameterError iff the
rule's filter value is empty, and no error otherwise; the same holds for
rule IDs. -/
theorem claim4_validate_empty_value (r : TweetSearchStreamRule)
    (i : TweetSearchStreamRuleID) :
    (r.validate = none ↔ r.Value ≠ "")
  ∧ (∀ e, r.validate = some e → e.isParameterError = true)
  ∧ (i.validate = none ↔ i.val ≠ "")
  ∧ (∀ e, i.validate = some e → e.isParameterError = true) := by
  refine ⟨?_, ?_, ?_, ?_⟩
  · by_cases h : r.Value = "" <;>
      simp [TweetSearchStreamRule.validate, string_length_eq_zero_iff, h]
  · intro e he
    by_cases h : r.Value.length = 0 <;>
      simp [TweetSearchStreamRule.validate, h] at he
    simp [← he, GoError.isParameterError, ErrParameter]
  · by_cases h : i.val = "" <;>
      simp [TweetSearchStreamRuleID.validate, string_length_eq_zero_iff, h]
  · intro e he
    by_cases h : i.val.length = 0 <;>
      simp [TweetSearchStreamRuleID.validate, h] at he
    simp [← he, GoError.isParameterError, ErrParameter]

/-- C4 witness: a rule with non-empty value validates; an empty rule ID
fails with an error wrapping `ErrParameter`. -/
theorem claim4_witness :
    TweetSearchStreamRule.validate ⟨"cat has:images", ""⟩ = none
  ∧ TweetSearchStreamRuleID.validate ⟨""⟩ ≠ none
  ∧ (GoError.wrap "tweet search stream rule value is required" ErrParameter).isParameterError
      = true := by
  refine ⟨?_, ?_, ?_⟩
  · exact (claim4_validate_empty_value ⟨"cat has:images", ""⟩ ⟨"x"⟩).1.mpr (by decide)
  · intro hcontra
    exact absurd ((claim4_validate_empty_value ⟨"a", ""⟩ ⟨""⟩).2.2.1.mp hcontra) (by decide)
  · exact (claim4_validate_empty_value ⟨"", ""⟩ ⟨"x"⟩).2.1 _ (by decide)

/-- C5: batch validation of rules and of rule IDs scans in caller order,
returns the first invalid element's error (short-circuit), and returns no
error iff every element is valid (in particular on the empty batch). -/
theorem claim5_batch_short_circuit :
    (∀ rs : tweetSearchStreamRules,
      tweetSearchStreamRules.validate rs = none ↔ ∀ r ∈ rs, r.validate = none)
  ∧ (∀ (l₁ : tweetSearchStreamRules) (bad : TweetSearchStreamRule)
      (l₂ : tweetSearchStreamRules), (∀ r ∈ l₁, r.validate = none) →
      bad.validate ≠ none →
      tweetSearchStreamRules.validate (l₁ ++ bad :: l₂) = bad.validate)
  ∧ (∀ ids : tweetSearchStreamRuleIDs,
      tweetSearchStreamRuleIDs.validate ids = none ↔ ∀ i ∈ ids, i.validate = none)
  ∧ (∀ (l₁ : tweetSearchStreamRuleIDs) (bad : TweetSearchStreamRuleID)
      (l₂ : tweetSearchStreamRuleIDs), (∀ i ∈ l₁, i.validate = none) →
      bad.validate ≠ none →
      tweetSearchStreamRuleIDs.validate (l₁ ++ bad :: l₂) = bad.validate) :=
  ⟨rules_validate_none_iff, rules_validate_first_invalid,
   ruleIDs_validate_none_iff, ruleIDs_validate_first_invalid⟩

/-- C5 witness: the spec's example batch `[{value:"a"}, {value:""}]` fails
with the second element's error, and the empty batch validates. -/
theorem claim5_witness :
    tweetSearchStreamRules.validate [⟨"a", ""⟩, ⟨"", ""⟩]
      = some (GoError.wrap "tweet search stream rule value is required" ErrParameter)
  ∧ tweetSearchStreamRuleIDs.validate [] = none := by
  constructor
  · have h := claim5_batch_short_circuit.2.1 [⟨"a", ""⟩] ⟨"", ""⟩ []
      (by decide) (by decide)
    simpa [TweetSearchStreamRule.validate] using h
  · exact (claim5_batch_short_circuit.2.2.1 []).mpr (by simp)

/-- C9: the rule-ID batch-to-wire conversion produces a string sequence of
the same length whose `i`-th element is the string form of the `i`-th
input ID. -/
theorem claim9_id_batch_to_wire (ids : tweetSearchStreamRuleIDs) :
    (tweetSearchStreamRuleIDs.toStringArray ids).length = ids.length
  ∧ ∀ (n : Nat) (h : n < ids.length),
      (tweetSearchStreamRuleIDs.toStringArray ids).get
          ⟨n, by simpa [tweetSearchStreamRuleIDs.toStringArray] using h⟩
        = (ids.get ⟨n, h⟩).val := by
  refine ⟨by simp [tweetSearchStreamRuleIDs.toStringArray], fun n h => ?_⟩
  simp [tweetSearchStreamRuleIDs.toStringArray]

/-- C9 witness: on a concrete two-ID batch the conversion preserves length
and order. -/
theorem claim9_witness :
    (tweetSearchStreamRuleIDs.toStringArray [⟨"123"⟩, ⟨"456"⟩]).length = 2
  ∧ (tweetSearchStreamRuleIDs.toStringArray [⟨"123"⟩, ⟨"456"⟩]).get
      ⟨1, by decide⟩ = "456" := by
  constructor
  · simpa using (claim9_id_batch_to_wire [⟨"123"⟩, ⟨"456"⟩]).1
  · simpa using (claim9_id_batch_to_wire [⟨"123"⟩, ⟨"456"⟩]).2 1 (by decide)

/-- C2 counterexample: applying `addQuery` a second time to the request it
already encoded duplicates every non-zero field, so apply-twice does not
equal apply-once (here: `next_token=a&next_token=a` vs `next_token=a`). -/
theorem claim2_counterexample :
    (TweetRecentSearchOpts.addQuery { NextToken := "a" }
        (TweetRecentSearchOpts.addQuery { NextToken := "a" } ⟨""⟩)).RawQuery
      ≠ (TweetRecentSearchOpts.addQuery { NextToken := "a" } ⟨""⟩).RawQuery := by
  decide

/-- C2 amended: encoding is deterministic — the same options struct
applied to requests with equal query strings yields equal query strings —
and with all option fields zero-valued apply-twice equals apply-once on
every request (re-application adds nothing, and re-encoding the already
normalized query is stable); with any non-zero field, re-application
duplicates it, as the counterexample shows. -/
theorem claim2_encoding_deterministic :
    (∀ (t : TweetRecentSearchOpts) (r₁ r₂ : Request), r₁.RawQuery = r₂.RawQuery →
      (t.addQuery r₁).RawQuery = (t.addQuery r₂).RawQuery)
  ∧ (∀ (t : TweetRecentSearchOpts) (r : Request), t.allZero →
      t.addQuery (t.addQuery r) = t.addQuery r) := by
  constructor
  · intro t r₁ r₂ h
    cases r₁
    cases r₂
    cases h
    rfl
  · intro t r hz
    have hinv := parseQuery_inv r.RawQuery
    by_cases hq : parseQuery r.RawQuery = []
    · have h1 : t.addQuery r = r := by
        simp [TweetRecentSearchOpts.addQuery, recent_addQueryValues_allZero t hz, hq]
      rw [h1]
      exact h1
    · have hlen : (parseQuery r.RawQuery).length > 0 := List.length_pos.mpr hq
      have h1 : t.addQuery r = { r with RawQuery := (parseQuery r.RawQuery).encode } := by
        simp [TweetRecentSearchOpts.addQuery, recent_addQueryValues_allZero t hz, hlen]
      have hq' : parseQuery (Values.encode (parseQuery r.RawQuery))
          = sortByKey (parseQuery r.RawQuery) :=
        parseQuery_encode _ hinv.1 hinv.2
      have hlen' : (sortByKey (parseQuery r.RawQuery)).length > 0 := by
        rw [(sortByKey_perm (parseQuery r.RawQuery)).length_eq]
        exact hlen
      have henc := encode_sortByKey (parseQuery r.RawQuery) hinv.1
      rw [h1]
      simp [TweetRecentSearchOpts.addQuery, recent_addQueryValues_allZero t hz, hq',
        hlen', henc]

/-- C2 witness: deterministic at `NextToken = "a"`; idempotent at the
all-zero options both on a fresh request and on a request already carrying
query parameters. -/
theorem claim2_witness :
    (TweetRecentSearchOpts.addQuery { NextToken := "a" } ⟨""⟩).RawQuery
      = (TweetRecentSearchOpts.addQuery { NextToken := "a" } ⟨""⟩).RawQuery
  ∧ TweetRecentSearchOpts.addQuery {} (TweetRecentSearchOpts.addQuery {} ⟨""⟩)
      = TweetRecentSearchOpts.addQuery {} ⟨""⟩
  ∧ TweetRecentSearchOpts.addQuery {} (TweetRecentSearchOpts.addQuery {} ⟨"b=2&a=1"⟩)
      = TweetRecentSearchOpts.addQuery {} ⟨"b=2&a=1"⟩ :=
  ⟨claim2_encoding_deterministic.1 { NextToken := "a" } ⟨""⟩ ⟨""⟩ rfl,
   claim2_encoding_deterministic.2 {} ⟨""⟩ (by decide),
   claim2_encoding_deterministic.2 {} ⟨"b=2&a=1"⟩ (by decide)⟩

/-- C10 counterexample: with every option field zero-valued, a request
whose query is `b=2&a=1` does not keep its raw query byte-for-byte — the
encoder re-encodes it (to `a=1&b=2`). -/
theorem claim10_counterexample :
    TweetRecentSearchOpts.allZero {}
  ∧ (TweetRecentSearchOpts.addQuery {} ⟨"b=2&a=1"⟩).RawQuery ≠ "b=2&a=1" :=
  ⟨by decide, by decide⟩

/-- C10 amended: with all option fields zero-valued the encoder adds
nothing — the request is untouched whenever its query parses to no
parameters (in particular when empty), and otherwise its raw query is
rewritten to the normalized re-encoding of exactly the parsed parameters;
in general every existing parsed key keeps its values (the encoder only
appends to them) when option fields are merged in. -/
theorem claim10_frame_effect (t : TweetRecentSearchOpts) (u : UserLookupOpts)
    (req : Request) :
    (t.allZero → (parseQuery req.RawQuery = [] → t.addQuery req = req)
      ∧ (parseQuery req.RawQuery ≠ [] →
          (t.addQuery req).RawQuery = Values.encode (parseQuery req.RawQuery)))
  ∧ (∀ k, ∃ extra, (t.addQueryValues (parseQuery req.RawQuery)).get k
      = (parseQuery req.RawQuery).get k ++ extra)
  ∧ (u.allZero → (parseQuery req.RawQuery = [] → u.addQuery req = req)
      ∧ (parseQuery req.RawQuery ≠ [] →
          (u.addQuery req).RawQuery = Values.encode (parseQuery req.RawQuery)))
  ∧ (∀ k, ∃ extra, (u.addQueryValues (parseQuery req.RawQuery)).get k
      = (parseQuery req.RawQuery).get k ++ extra) := by
  refine ⟨fun hz => ⟨fun hq => ?_, fun hq => ?_⟩,
    fun k => ⟨recentContribution t k, recent_get t (parseQuery req.RawQuery) k⟩,
    fun hz => ⟨fun hq => ?_, fun hq => ?_⟩,
    fun k => ⟨userContribution u k, user_get u (parseQuery req.RawQuery) k⟩⟩
  · simp [TweetRecentSearchOpts.addQuery, recent_addQueryValues_allZero t hz, hq]
  · have hlen : (parseQuery req.RawQuery).length > 0 := List.length_pos.mpr hq
    simp [TweetRecentSearchOpts.addQuery, recent_addQueryValues_allZero t hz, hlen]
  · simp [UserLookupOpts.addQuery, user_addQueryValues_allZero u hz, hq]
  · have hlen : (parseQuery req.RawQuery).length > 0 := List.length_pos.mpr hq
    simp [UserLookupOpts.addQuery, user_addQueryValues_allZero u hz, hlen]

/-- C10 witness: a fresh request stays untouched under all-zero options,
and a request with existing parameters is rewritten to their normalized
re-encoding. -/
theorem claim10_witness :
    TweetRecentSearchOpts.addQuery {} ⟨""⟩ = ⟨""⟩
  ∧ (TweetRecentSearchOpts.addQuery {} ⟨"b=2&a=1"⟩).RawQuery
      = Values.encode (parseQuery "b=2&a=1")
  ∧ UserLookupOpts.addQuery {} ⟨""⟩ = ⟨""⟩ := by
  refine ⟨?_, ?_, ?_⟩
  · exact ((claim10_frame_effect {} {} ⟨""⟩).1 (by decide)).1 rfl
  · exact ((claim10_frame_effect {} {} ⟨"b=2&a=1"⟩).1 (by decide)).2 (by decide)
  · exact ((claim10_frame_effect {} {} ⟨""⟩).2.2.1 (by decide)).1 rfl

/-- C6: on a non-200 status, a body that parses as the error envelope
yields that envelope filled with the status code and the three rate limits
read from the headers; a body that does not parse yields the minimal
`HTTPError` carrying only status code and rate limits; success is never
returned on a non-200 status. -/
theorem claim6_api_error_non_ok (sc : Int) (h : Headers) (buf : Buffer)
    (hsc : sc ≠ 200) :
    (∀ e, buf.asErrorResponse = Except.ok e →
      TweetRecentSearchAsyncResponse.Build sc h (Except.ok buf)
        = Except.error (BuildError.errorResponse
            { e with StatusCode := sc, RateLimit := rateFromHeader h,
                     DailyAppRateLimit := dailyAppRateFromHeader h,
                     DailyUserRateLimit := dailyUserRateFromHeader h }))
  ∧ (∀ msg, buf.asErrorResponse = Except.error msg →
      TweetRecentSearchAsyncResponse.Build sc h (Except.ok buf)
        = Except.error (BuildError.httpError sc (rateFromHeader h)
            (dailyAppRateFromHeader h) (dailyUserRateFromHeader h)))
  ∧ (∀ (body : Except String Buffer) (resp : TweetRecentSearchResponse),
      TweetRecentSearchAsyncResponse.Build sc h body ≠ Except.ok resp) := by
  refine ⟨fun e he => ?_, fun msg hm => ?_, fun body resp hr => ?_⟩
  · simp [TweetRecentSearchAsyncResponse.Build, hsc, he]
  · simp [TweetRecentSearchAsyncResponse.Build, hsc, hm]
  · cases body with
    | error e => simp [TweetRecentSearchAsyncResponse.Build] at hr
    | ok b =>
      cases hb : b.asErrorResponse <;>
        simp [TweetRecentSearchAsyncResponse.Build, hsc, hb] at hr

/-- C6 witness: a 429 with a parseable envelope carries envelope, status
and header rate limits; a 500 with an unparseable body degrades to the
minimal variant. -/
theorem claim6_witness :
    TweetRecentSearchAsyncResponse.Build 429
        [("x-rate-limit-limit", "100"), ("x-rate-limit-remaining", "0"),
         ("x-rate-limit-reset", "1700000000")]
        (Except.ok ⟨Except.ok { Title := "rate limited" },
          Except.error "skip", Except.error "skip"⟩)
      = Except.error (BuildError.errorResponse
          { Title := "rate limited", StatusCode := 429,
            RateLimit := { Limit := 100, Remaining := 0, Reset := 1700000000 },
            DailyAppRateLimit := {}, DailyUserRateLimit := {} })
  ∧ TweetRecentSearchAsyncResponse.Build 500 []
        (Except.ok ⟨Except.error "not json", Except.error "skip", Except.error "skip"⟩)
      = Except.error (BuildError.httpError 500 {} {} {}) := by
  constructor
  · have hc := (claim6_api_error_non_ok 429
      [("x-rate-limit-limit", "100"), ("x-rate-limit-remaining", "0"),
       ("x-rate-limit-reset", "1700000000")]
      ⟨Except.ok { Title := "rate limited" }, Except.error "skip", Except.error "skip"⟩
      (by decide)).1 { Title := "rate limited" } rfl
    exact hc.trans (by decide)
  · have hc := (claim6_api_error_non_ok 500 []
      ⟨Except.error "not json", Except.error "skip", Except.error "skip"⟩
      (by decide)).2.1 "not json" rfl
    exact hc.trans (by decide)

/-- C7: on a 200 status, a failure of either decoding pass (raw structural
form first, typed metadata wrapper second) yields a `ResponseDecodeError`
carrying the underlying parse error and the header rate limit — not
success and not an API error. -/
theorem claim7_decode_error (h : Headers) (buf : Buffer) :
    (∀ msg, buf.asTweetRaw = Except.error msg →
      TweetRecentSearchAsyncResponse.Build 200 h (Except.ok buf)
        = Except.error (BuildError.responseDecodeError "tweet recent search" msg
            (rateFromHeader h)))
  ∧ (∀ raw msg, buf.asTweetRaw = Except.ok raw → buf.asMeta = Except.error msg →
      TweetRecentSearchAsyncResponse.Build 200 h (Except.ok buf)
        = Except.error (BuildError.responseDecodeError "tweet recent search" msg
            (rateFromHeader h))) := by
  refine ⟨fun msg hm => ?_, fun raw msg hraw hmeta => ?_⟩
  · simp [TweetRecentSearchAsyncResponse.Build, hm]
  · simp [TweetRecentSearchAsyncResponse.Build, hraw, hmeta]

/-- C7 witness: a failing raw pass and a failing typed pass each produce a
`ResponseDecodeError` with the parse error and the header rate limit. -/
theorem claim7_witness :
    TweetRecentSearchAsyncResponse.Build 200 [("x-rate-limit-limit", "15")]
        (Except.ok ⟨Except.error "skip", Except.error "bad raw", Except.ok {}⟩)
      = Except.error (BuildError.responseDecodeError "tweet recent search" "bad raw"
          { Limit := 15, Remaining := 0, Reset := 0 })
  ∧ TweetRecentSearchAsyncResponse.Build 200 []
        (Except.ok ⟨Except.error "skip", Except.ok {}, Except.error "bad meta"⟩)
      = Except.error (BuildError.responseDecodeError "tweet recent search" "bad meta" {}) := by
  constructor
  · exact ((claim7_decode_error [("x-rate-limit-limit", "15")]
      ⟨Except.error "skip", Except.error "bad raw", Except.ok {}⟩).1
        "bad raw" rfl).trans (by decide)
  · exact ((claim7_decode_error []
      ⟨Except.error "skip", Except.ok {}, Except.error "bad meta"⟩).2
        {} "bad meta" rfl rfl).trans (by decide)

end GoTwitter
